import Mathlib

/-!
Shallow embedding of the Frankenstein moral-drift agent-based model
(`agent.py`, `model.py`) and proofs about its claims.

Randomness is modelled by explicit streams `ℕ → ℚ` of raw draws in `[0,1)`,
one element per primitive draw of the corresponding Python random source.
Two streams occur, matching the two random sources the code actually uses:
the process-global `random` module (topology construction, archetype
assignment, movement) and the Mesa model's seeded generator
(`self.random`: the neutral-trust coin flip and the scheduler shuffle).
-/

namespace Frankenstein

/-- Raw random stream: draw `i` yields a rational in `[0,1)`. -/
abbrev RStream := ℕ → ℚ

/-- `random.choice`: index selected by one uniform draw `r ∈ [0,1)`. -/
def choiceIdx (len : ℕ) (r : ℚ) : ℕ :=
  min (Int.toNat ⌊r * (len : ℚ)⌋) (len - 1)

/-- Outcome of a Human/Creature encounter (`"accept"` / `"reject"`). -/
inductive Outcome
  | accept
  | reject
deriving DecidableEq

/-- `CreatureState` enum from `agent.py`. -/
inductive CreatureState
  | peaceful
  | cautious
  | vengeful
deriving DecidableEq

/-- Graph nodes: human nodes `0..n-1` and the extra `"creature"` node. -/
inductive Node
  | h (i : ℕ)
  | creature
deriving DecidableEq

/-- Numeric value of a creature state (`CreatureState(Enum)` values). -/
def stateValue : CreatureState → ℕ
  | .peaceful => 0
  | .cautious => 1
  | .vengeful => 2

/-! ## Graph primitives (networkx-style undirected edge list) -/

/-- Undirected edge membership. -/
def hasEdge (es : List (Node × Node)) (u v : Node) : Bool :=
  es.any (fun e => (e.1 = u ∧ e.2 = v) ∨ (e.1 = v ∧ e.2 = u))

/-- `G.add_edge`: a duplicate edge is a no-op (networkx adjacency dict). -/
def addEdge (es : List (Node × Node)) (u v : Node) : List (Node × Node) :=
  if hasEdge es u v then es else es ++ [(u, v)]

/-- `G.remove_edge` (undirected). -/
def removeEdge (es : List (Node × Node)) (u v : Node) : List (Node × Node) :=
  es.filter (fun e => ¬((e.1 = u ∧ e.2 = v) ∨ (e.1 = v ∧ e.2 = u)))

/-- Neighbors of `v` in insertion order of the incident edges. -/
def nbrs (es : List (Node × Node)) (v : Node) : List Node :=
  es.filterMap (fun e =>
    if e.1 = v then some e.2 else if e.2 = v then some e.1 else none)

/-- Degree of a node (no self-loops arise in this model). -/
def degreeOf (es : List (Node × Node)) (v : Node) : ℕ :=
  (nbrs es v).length

/-! ## `nx.watts_strogatz_graph` (external library, modelled from its
published algorithm: ring lattice, then per-edge rewiring) -/

/-- Ring lattice phase: each node joined to its `k/2` nearest on each side. -/
def wsLattice (n k : ℕ) : List (Node × Node) :=
  (List.range (k / 2)).foldl
    (fun es j =>
      (List.range n).foldl
        (fun es u => addEdge es (Node.h u) (Node.h ((u + (j + 1)) % n)))
        es)
    []

/-- `nx.complete_graph n` edge list (`(i, j)` with `i < j`). -/
def completeEdges (n : ℕ) : List (Node × Node) :=
  (List.range n).foldl
    (fun es i =>
      (List.range n).foldl
        (fun es j => if i < j then addEdge es (Node.h i) (Node.h j) else es)
        es)
    []

/-- Rejection loop of the rewiring phase (`while w == u or G.has_edge(u,w)`),
with explicit fuel standing in for almost-sure termination of the source's
rejection sampling. Returns the accepted target (or `none` on break) and
the advanced global-stream index. -/
def rewireLoop (n : ℕ) (es : List (Node × Node)) (u : ℕ) (g : RStream) :
    ℕ → ℕ → ℕ → Option ℕ × ℕ
  | fuel, w, gi =>
    if w = u ∨ hasEdge es (Node.h u) (Node.h w) then
      match fuel with
      | 0 => (none, gi)
      | fuel' + 1 =>
        let w' := choiceIdx n (g gi)
        if degreeOf es (Node.h u) ≥ n - 1 then (none, gi + 1)
        else rewireLoop n es u g fuel' w' (gi + 1)
    else (some w, gi)

/-- Fuel bound for the rejection loop. -/
def rewireFuel (n : ℕ) : ℕ := n + 10

/-- Rewiring phase: for each lattice edge `(u, (u+j) % n)`, with probability
`p` replace it by an edge to a random non-duplicate target. -/
def wsRewire (n k : ℕ) (p : ℚ) (g : RStream)
    (es0 : List (Node × Node)) (gi0 : ℕ) : List (Node × Node) × ℕ :=
  (List.range (k / 2)).foldl
    (fun acc j =>
      (List.range n).foldl
        (fun (acc : List (Node × Node) × ℕ) u =>
          let es := acc.1
          let gi := acc.2
          let v := (u + (j + 1)) % n
          let r := g gi
          if r < p then
            let w0 := choiceIdx n (g (gi + 1))
            match rewireLoop n es u g (rewireFuel n) w0 (gi + 2) with
            | (some w, gi') =>
              (addEdge (removeEdge es (Node.h u) (Node.h v)) (Node.h u) (Node.h w), gi')
            | (none, gi') => (es, gi')
          else (es, gi + 1))
        acc)
    (es0, gi0)

/-- Construction errors: no `ConfigurationError` exists in the source; the
only failures are the underlying libraries' own errors. -/
inductive BuildError
  | nxError
  | sampleError
deriving DecidableEq

/-- `nx.watts_strogatz_graph n k p`: error when `k > n`; complete graph when
`k = n`; otherwise ring lattice plus rewiring. -/
def wattsStrogatz (n k : ℕ) (p : ℚ) (g : RStream) (gi : ℕ) :
    Except BuildError (List (Node × Node) × ℕ) :=
  if k > n then .error .nxError
  else if k = n then .ok (completeEdges n, gi)
  else .ok (wsRewire n k p g (wsLattice n k) gi)

/-! ## `random.sample` (without replacement) -/

/-- Selection loop of `random.sample`: one draw per selected element,
chosen element removed from the pool. -/
def sampleAux (g : RStream) : List Node → ℕ → ℕ → List Node × ℕ
  | _, 0, gi => ([], gi)
  | pool, k + 1, gi =>
    let idx := choiceIdx pool.length (g gi)
    let x := pool.getD idx Node.creature
    let (rest, gi') := sampleAux g (pool.eraseIdx idx) k (gi + 1)
    (x :: rest, gi')

/-- `random.sample pool k`: `ValueError` when `k` exceeds the pool size. -/
def sample (pool : List Node) (k : ℕ) (g : RStream) (gi : ℕ) :
    Except BuildError (List Node × ℕ) :=
  if k > pool.length then .error .sampleError
  else .ok (sampleAux g pool k gi)

/-! ## Model construction (`FrankensteinNetworkModel.__init__`) -/

/-- Construction parameters with the Python defaults. -/
structure Params where
  n_humans : ℕ := 30
  fearful_frac : ℚ := 2/5
  compassionate_frac : ℚ := 1/5
  avg_degree : ℕ := 4
  rewiring_prob : ℚ := 1/10
  initial_edges : ℕ := 3
  max_emotion : ℚ := 10
  res_threshold : Option ℚ := none
  emp_threshold : Option ℚ := none
  enable_broadcast : Bool := false
deriving DecidableEq

/-- `k = avg_degree if avg_degree % 2 == 0 else avg_degree + 1`. -/
def adjustedK (d : ℕ) : ℕ := if d % 2 = 0 then d else d + 1

/-- The human nodes `0..n-1` in networkx insertion order. -/
def humanNodes (n : ℕ) : List Node := (List.range n).map Node.h

/-- Archetype trust from one uniform draw (`fearful → -1`,
`compassionate → +1`, else neutral `0`). -/
def archetypeTrust (ff cf r : ℚ) : ℚ :=
  if r < ff then -1 else if r < ff + cf then 1 else 0

/-- Population archetype assignment: one global draw per human node. -/
def assignTrusts (n : ℕ) (ff cf : ℚ) (g : RStream) (gi : ℕ) :
    List ℚ × ℕ :=
  ((List.range n).map (fun i => archetypeTrust ff cf (g (gi + i))), gi + n)

/-- The mutable simulation state. `initTrusts` and `posTrace` are ghost
fields recording the construction-time archetype assignment and every
creature relocation; they are written but never read by the dynamics. -/
structure ModelState where
  resThreshold : ℚ
  empThreshold : ℚ
  enableBroadcast : Bool
  nHumans : ℕ
  initialEdges : ℕ
  edges : List (Node × Node)
  trusts : List ℚ
  initTrusts : List ℚ
  empathy : ℚ
  resentment : ℚ
  cstate : CreatureState
  cpos : Node
  posTrace : List Node
  collected : List (ℕ × ℕ × ℕ × ℕ)
deriving DecidableEq

/-- One data-collector row: counts of humans by trust label
(`≤ -0.5`, strictly between, `≥ 0.5`) and the creature state value. -/
def collectRow (s : ModelState) : ℕ × ℕ × ℕ × ℕ :=
  ((s.trusts.filter (fun t => t ≤ -(1/2))).length,
   (s.trusts.filter (fun t => -(1/2) < t ∧ t < 1/2)).length,
   (s.trusts.filter (fun t => 1/2 ≤ t)).length,
   stateValue s.cstate)

/-- `datacollector.collect`. -/
def collect (s : ModelState) : ModelState :=
  { s with collected := s.collected ++ [collectRow s] }

/-- An inert state (used only as a fallback when projecting `Except`). -/
def emptyModel : ModelState :=
  { resThreshold := 0, empThreshold := 0, enableBroadcast := false,
    nHumans := 0, initialEdges := 0, edges := [], trusts := [],
    initTrusts := [], empathy := 0, resentment := 0,
    cstate := .peaceful, cpos := Node.creature, posTrace := [],
    collected := [] }

/-- `FrankensteinNetworkModel.__init__`: thresholds default to
`0.75 × max_emotion` and `0.25 × max_emotion`; Watts–Strogatz base graph
over the humans; the creature node attached to `random.sample(..., k=self.avg_degree)`
targets (the live code passes `avg_degree`, not `initial_edges`); archetype
assignment one global draw per node; initial snapshot collected at the end.
Only the global stream `g` is consumed. -/
def build (p : Params) (g : RStream) :
    Except BuildError (ModelState × ℕ) :=
  let rt := p.res_threshold.getD (3/4 * p.max_emotion)
  let et := p.emp_threshold.getD (1/4 * p.max_emotion)
  let k := adjustedK p.avg_degree
  match wattsStrogatz p.n_humans k p.rewiring_prob g 0 with
  | .error e => .error e
  | .ok (es0, gi0) =>
    match sample (humanNodes p.n_humans) p.avg_degree g gi0 with
    | .error e => .error e
    | .ok (targets, gi1) =>
      let es1 := targets.foldl (fun es t => addEdge es Node.creature t) es0
      let (ts, gi2) := assignTrusts p.n_humans p.fearful_frac p.compassionate_frac g gi1
      let s : ModelState :=
        { resThreshold := rt, empThreshold := et,
          enableBroadcast := p.enable_broadcast,
          nHumans := p.n_humans, initialEdges := p.initial_edges,
          edges := es1, trusts := ts, initTrusts := ts,
          empathy := 10, resentment := 0,
          cstate := .peaceful, cpos := Node.creature,
          posTrace := [], collected := [] }
      .ok (collect s, gi2)

/-- State projection of a construction result. -/
def stateOfBuild : Except BuildError (ModelState × ℕ) → ModelState
  | .ok (s, _) => s
  | .error _ => emptyModel

/-- Global-stream index after construction. -/
def giOfBuild : Except BuildError (ModelState × ℕ) → ℕ
  | .ok (_, gi) => gi
  | .error _ => 0

/-- Success test on a construction result. -/
def isOk {ε α : Type} : Except ε α → Bool
  | .ok _ => true
  | .error _ => false

/-! ## Human operations (`HumanAgent`) -/

/-- `HumanAgent.interact(creature_state)`: a vengeful creature resets trust
to the fearful extreme and is rejected; otherwise reject below zero trust,
accept above, and a coin flip `r < 0.5` at exactly zero. Returns the new
trust together with the outcome; `r` is the raw seeded-stream draw that is
consumed only in the neutral branch. -/
def interactH (cs : CreatureState) (t : ℚ) (r : ℚ) : ℚ × Outcome :=
  if cs = .vengeful then (-1, .reject)
  else if t < 0 then (t, .reject)
  else if t > 0 then (t, .accept)
  else (t, if r < 1/2 then .accept else .reject)

/-- Number of seeded-stream draws `interact` consumes (`self.random.random()`
is called only in the neutral, non-vengeful branch). -/
def interactDraws (cs : CreatureState) (t : ℚ) : ℕ :=
  if cs = .vengeful then 0 else if t < 0 then 0 else if t > 0 then 0 else 1

/-- `HumanAgent.learn(outcome)`: a fearful human (trust exactly `-1`) moves
to neutral on accept; nothing else changes. -/
def learn (t : ℚ) (o : Outcome) : ℚ :=
  if t = -1 ∧ o = .accept then 0 else t

/-- Body of `HumanAgent.broadcast_trust`'s loop over topological neighbors:
each neighboring cell's human with strictly lower trust than the (live-read)
broadcaster is nudged by `+0.1`, capped at `+1.0`. The creature's cell holds
no human and is skipped. -/
def bcFold (i : ℕ) (ns : List Node) (ts : List ℚ) : List ℚ :=
  ns.foldl
    (fun ts nd =>
      match nd with
      | .creature => ts
      | .h j =>
        let ti := ts.getD i 0
        let tj := ts.getD j 0
        if tj < ti then ts.set j (min (tj + 1/10) 1) else ts)
    ts

/-- `HumanAgent.broadcast_trust()` for the human at node `i`: early return
unless broadcasting is enabled and the broadcaster's trust is positive. -/
def broadcastTrust (s : ModelState) (i : ℕ) : ModelState :=
  if ¬s.enableBroadcast ∨ s.trusts.getD i 0 ≤ 0 then s
  else { s with trusts := bcFold i (nbrs s.edges (Node.h i)) s.trusts }

/-! ## Creature operations (`CreatureAgent`) -/

/-- `CreatureAgent.update_emotions(outcome)`: accept raises empathy and
lowers resentment, reject the reverse, each clamped against the hardcoded
constants `10` and `0`; then the state is recomputed from the new counters
and the model thresholds. Returns `(empathy', resentment', state')`. -/
def update_emotions (rt et e r : ℚ) (o : Outcome) : ℚ × ℚ × CreatureState :=
  let e' := if o = .accept then min (e + 1) 10 else max (e - 1) 0
  let r' := if o = .accept then max (r - 1) 0 else min (r + 1) 10
  let st := if r' > rt ∧ e' < et then CreatureState.vengeful
            else if r' > 3/5 * rt then CreatureState.cautious
            else CreatureState.peaceful
  (e', r', st)

/-- One body iteration of `CreatureAgent.interact` up to (and excluding) the
broadcast trigger: the human's `interact` (mutating its trust), the
creature's `update_emotions`, then the human's `learn`. Returns the state,
the outcome, and the advanced seeded-stream index. -/
def meetPre (s : ModelState) (i : ℕ) (m : RStream) (mi : ℕ) :
    ModelState × Outcome × ℕ :=
  let t := s.trusts.getD i 0
  let res := interactH s.cstate t (m mi)
  let mi' := mi + interactDraws s.cstate t
  let s1 := { s with trusts := s.trusts.set i res.1 }
  let upd := update_emotions s1.resThreshold s1.empThreshold s1.empathy s1.resentment res.2
  let s2 := { s1 with empathy := upd.1, resentment := upd.2.1, cstate := upd.2.2 }
  let s3 := { s2 with trusts := s2.trusts.set i (learn (s2.trusts.getD i 0) res.2) }
  (s3, res.2, mi')

/-- Full body iteration of `CreatureAgent.interact`: `broadcast_trust` is
invoked exactly when the outcome is accept. -/
def meet (s : ModelState) (i : ℕ) (m : RStream) (mi : ℕ) : ModelState × ℕ :=
  let pre := meetPre s i m mi
  (if pre.2.1 = .accept then broadcastTrust pre.1 i else pre.1, pre.2.2)

/-- Humans co-located with a cell: every human node `i < n` holds exactly
the one human `i`; the creature's own node holds none. -/
def cellHumans (s : ModelState) : Node → List ℕ
  | .h i => if i < s.nHumans then [i] else []
  | .creature => []

/-- `CreatureAgent.interact()`: meet every human at the creature's current
position in cell order. -/
def creatureInteract (s : ModelState) (m : RStream) (mi : ℕ) :
    ModelState × ℕ :=
  (cellHumans s s.cpos).foldl (fun acc i => meet acc.1 i m acc.2) (s, mi)

/-- Creature relocation (`CreatureAgent.move` and the verbatim inline copy
in `model.step`): one uniform choice among the neighbors of the *creature
node* (its `unique_id`), a no-op when there are none. Returns the state,
the advanced global-stream index and whether a relocation happened. -/
def moveCreature (s : ModelState) (g : RStream) (gi : ℕ) :
    ModelState × ℕ × Bool :=
  let ns := nbrs s.edges Node.creature
  match ns with
  | [] => (s, gi, false)
  | _ =>
    let nd := ns.getD (choiceIdx ns.length (g gi)) Node.creature
    ({ s with cpos := nd, posTrace := s.posTrace ++ [nd] }, gi + 1, true)

/-- Observable events of one tick, for the ordering claims. -/
inductive Event
  | move
  | interact
  | collectE
deriving DecidableEq

/-- `FrankensteinNetworkModel.step()`: the inline creature relocation, then
`agents.shuffle_do("step")` — the shuffle consumes `numAgents - 1 = nHumans`
seeded draws and, since human steps are no-ops, is equivalent to running the
creature's own `step` (`move()` then `interact()`) — then the snapshot.
Returns the state, both advanced stream indices, and the event trace. -/
def tickT (s : ModelState) (g m : RStream) (gi mi : ℕ) :
    ModelState × ℕ × ℕ × List Event :=
  let mv1 := moveCreature s g gi
  let mi0 := mi + s.nHumans
  let mv2 := moveCreature mv1.1 g mv1.2.1
  let itr := creatureInteract mv2.1 m mi0
  let s4 := collect itr.1
  (s4, mv2.2.1, itr.2,
    (if mv1.2.2 then [Event.move] else []) ++
    (if mv2.2.2 then [Event.move] else []) ++
    [Event.interact, Event.collectE])

/-- Trace projection of one tick. -/
def traceOf (s : ModelState) (g m : RStream) (gi mi : ℕ) : List Event :=
  (tickT s g m gi mi).2.2.2

/-- Iterated ticks threading both stream indices. -/
def runAux (g m : RStream) : ℕ → ModelState × ℕ × ℕ → ModelState × ℕ × ℕ
  | 0, x => x
  | n + 1, x =>
    let t := tickT x.1 g m x.2.1 x.2.2
    runAux g m n (t.1, t.2.1, t.2.2.1)

/-- A whole run: construction from the global stream, then `n` ticks. -/
def runState (p : Params) (g m : RStream) (n : ℕ) :
    Except BuildError ModelState :=
  match build p g with
  | .error e => .error e
  | .ok (s0, gi0) => .ok (runAux g m n (s0, gi0, 0)).1

/-- Collected rows of a run (empty for a failed construction). -/
def collectedOf : Except BuildError ModelState → List (ℕ × ℕ × ℕ × ℕ)
  | .ok s => s.collected
  | .error _ => []

/-- The projection of a run that, per the source, is drawn only from the
process-global stream: topology, construction-time archetype assignment,
and the creature's relocation trace. -/
def globalSideOf (s : ModelState) :
    List (Node × Node) × List ℚ × List Node :=
  (s.edges, s.initTrusts, s.posTrace)

/-! ## Specification-side predicates -/

/-- All human trust values lie in `[-1, 1]`. -/
def TrustsOK (ts : List ℚ) : Prop := ∀ t ∈ ts, -1 ≤ t ∧ t ≤ 1

/-- The state invariant: trusts in `[-1, 1]`, emotions in `[0, 10]`. -/
def GoodState (s : ModelState) : Prop :=
  TrustsOK s.trusts ∧
  0 ≤ s.empathy ∧ s.empathy ≤ 10 ∧ 0 ≤ s.resentment ∧ s.resentment ≤ 10

/-- Decidable trust-invariant check on a run result. -/
def trustInvE : Except BuildError ModelState → Bool
  | .error _ => true
  | .ok s => s.trusts.all (fun t => decide (-1 ≤ t) && decide (t ≤ 1))

/-- Decidable emotion-invariant check on a run result. -/
def emoInvE : Except BuildError ModelState → Bool
  | .error _ => true
  | .ok s =>
    decide (0 ≤ s.empathy) && decide (s.empathy ≤ 10) &&
    decide (0 ≤ s.resentment) && decide (s.resentment ≤ 10)

/-- Two states agreeing on everything the seeded stream never touches. -/
def SameGlobal (a b : ModelState) : Prop :=
  a.edges = b.edges ∧ a.initTrusts = b.initTrusts ∧
  a.posTrace = b.posTrace ∧ a.nHumans = b.nHumans ∧ a.cpos = b.cpos

/-! ## Concrete instances used by counterexamples and witnesses -/

/-- Global stream of all-zero draws. -/
def gA : RStream := fun _ => 0

/-- Global stream of all-`1/2` draws. -/
def gB : RStream := fun _ => 1/2

/-- Seeded stream of all-zero draws. -/
def mZ : RStream := fun _ => 0

/-- A tiny two-human configuration (adjusted degree `2 = n` gives the
complete graph, no rewiring draws). -/
def pSmall : Params :=
  { n_humans := 2, avg_degree := 1, rewiring_prob := 0, initial_edges := 3 }

/-- `pSmall` with a non-default `max_emotion`. -/
def p5 : Params := { pSmall with max_emotion := 5 }

/-- A configuration requesting more creature edges than there are humans. -/
def pBig : Params :=
  { n_humans := 5, avg_degree := 2, rewiring_prob := 0, initial_edges := 10 }

/-- The Python default configuration. -/
def defaultParams : Params := {}

/-- The model built from `pSmall` with the all-`1/2` global stream. -/
def s6 : ModelState := stateOfBuild (build pSmall gB)

/-- The model built from `pSmall` with the all-zero global stream
(both humans fearful). -/
def sA : ModelState := stateOfBuild (build pSmall gA)

/-- The model built from `p5` with the all-`1/2` global stream. -/
def s5 : ModelState := stateOfBuild (build p5 gB)

/-- A hand-made broadcast scenario: human 0 (trust `1`) adjacent to
human 1 (trust `0`), broadcasting enabled. -/
def sW : ModelState :=
  { emptyModel with
    enableBroadcast := true, nHumans := 2,
    edges := [(Node.h 0, Node.h 1)], trusts := [1, 0] }

/-- `sW` with broadcasting disabled. -/
def sOff : ModelState := { sW with enableBroadcast := false }

/-! ## List helpers -/

theorem fr_getD_mem_or (l : List ℚ) (i : ℕ) (d : ℚ) :
    l.getD i d ∈ l ∨ l.getD i d = d := by
  induction l generalizing i with
  | nil => right; rfl
  | cons a l ih =>
    cases i with
    | zero => left; simp [List.getD]
    | succ j =>
      have hstep : (a :: l).getD (j + 1) d = l.getD j d := by simp [List.getD]
      rw [hstep]
      rcases ih j with h | h
      · exact Or.inl (List.mem_cons_of_mem _ h)
      · exact Or.inr h

theorem fr_getD_set_self (l : List ℚ) (j : ℕ) (v d : ℚ) (h : j < l.length) :
    (l.set j v).getD j d = v := by
  induction l generalizing j with
  | nil => simp at h
  | cons a l ih =>
    cases j with
    | zero => rfl
    | succ j => exact ih j (by simpa using h)

theorem fr_getD_set_ne (l : List ℚ) (i j : ℕ) (v d : ℚ) (h : i ≠ j) :
    (l.set i v).getD j d = l.getD j d := by
  induction l generalizing i j with
  | nil => simp
  | cons a l ih =>
    cases i with
    | zero =>
      cases j with
      | zero => exact absurd rfl h
      | succ j => rfl
    | succ i =>
      cases j with
      | zero => rfl
      | succ j => exact ih i j (by omega)

theorem fr_set_oob (l : List ℚ) (j : ℕ) (v : ℚ) (h : l.length ≤ j) :
    l.set j v = l := by
  induction l generalizing j with
  | nil => rfl
  | cons a l ih =>
    cases j with
    | zero => simp at h
    | succ j => simp only [List.set]; rw [ih j (by simpa using h)]

theorem fr_getD_oob (l : List ℚ) (j : ℕ) (d : ℚ) (h : l.length ≤ j) :
    l.getD j d = d := by
  induction l generalizing j with
  | nil => rfl
  | cons a l ih =>
    cases j with
    | zero => simp at h
    | succ j => exact ih j (by simpa using h)

theorem fr_length_set (l : List ℚ) (j : ℕ) (v : ℚ) :
    (l.set j v).length = l.length := List.length_set ..

/-! ## Basic operation lemmas -/

theorem trustsOK_getD {ts : List ℚ} (h : TrustsOK ts) (i : ℕ) :
    -1 ≤ ts.getD i 0 ∧ ts.getD i 0 ≤ 1 := by
  rcases fr_getD_mem_or ts i 0 with hm | hz
  · exact h _ hm
  · rw [hz]; norm_num

theorem trustsOK_set {ts : List ℚ} (h : TrustsOK ts) {x : ℚ} (i : ℕ)
    (h1 : -1 ≤ x) (h2 : x ≤ 1) : TrustsOK (ts.set i x) := by
  intro t ht
  rcases List.mem_or_eq_of_mem_set ht with hm | he
  · exact h _ hm
  · subst he; exact ⟨h1, h2⟩

theorem interactH_trust_cases (cs : CreatureState) (t r : ℚ) :
    (interactH cs t r).1 = -1 ∨ (interactH cs t r).1 = t := by
  unfold interactH
  split_ifs <;> simp

theorem learn_cases (t : ℚ) (o : Outcome) :
    learn t o = 0 ∨ learn t o = t := by
  unfold learn
  split_ifs <;> simp

theorem archetypeTrust_cases (ff cf r : ℚ) :
    archetypeTrust ff cf r = -1 ∨ archetypeTrust ff cf r = 0 ∨
    archetypeTrust ff cf r = 1 := by
  unfold archetypeTrust
  split_ifs <;> simp

theorem le_adjustedK (d : ℕ) : d ≤ adjustedK d := by
  unfold adjustedK
  split <;> omega

theorem update_emotions_bounds (rt et e r : ℚ) (o : Outcome)
    (h1 : 0 ≤ e) (h2 : e ≤ 10) (h3 : 0 ≤ r) (h4 : r ≤ 10) :
    0 ≤ (update_emotions rt et e r o).1 ∧
    (update_emotions rt et e r o).1 ≤ 10 ∧
    0 ≤ (update_emotions rt et e r o).2.1 ∧
    (update_emotions rt et e r o).2.1 ≤ 10 := by
  unfold update_emotions
  cases o <;>
    simp only [] <;>
    refine ⟨?_, ?_, ?_, ?_⟩ <;>
    first
      | exact le_min (by linarith) (by norm_num)
      | exact min_le_right _ _
      | exact le_max_right _ _
      | exact max_le (by linarith) (by norm_num)

/-! ## Broadcast fold lemmas -/

theorem bcFold_nil (i : ℕ) (ts : List ℚ) : bcFold i [] ts = ts := rfl

theorem bcFold_cons (i : ℕ) (nd : Node) (ns : List Node) (ts : List ℚ) :
    bcFold i (nd :: ns) ts =
      bcFold i ns
        (match nd with
         | .creature => ts
         | .h j =>
           let ti := ts.getD i 0
           let tj := ts.getD j 0
           if tj < ti then ts.set j (min (tj + 1/10) 1) else ts) := rfl

theorem bcFold_length (i : ℕ) (ns : List Node) (ts : List ℚ) :
    (bcFold i ns ts).length = ts.length := by
  induction ns generalizing ts with
  | nil => rfl
  | cons nd ns ih =>
    rw [bcFold_cons]
    cases nd with
    | creature => exact ih ts
    | h j =>
      simp only []
      split
      · rw [ih, fr_length_set]
      · exact ih ts

theorem bcFold_getD_not_mem (i j : ℕ) (ns : List Node) (ts : List ℚ)
    (hj : Node.h j ∉ ns) :
    (bcFold i ns ts).getD j 0 = ts.getD j 0 := by
  induction ns generalizing ts with
  | nil => rfl
  | cons nd ns ih =>
    rw [bcFold_cons]
    have hj' : Node.h j ∉ ns := fun h => hj (List.mem_cons_of_mem _ h)
    cases nd with
    | creature => exact ih ts hj'
    | h j' =>
      have hne : j' ≠ j := by
        intro he; subst he; exact hj (List.mem_cons_self _ _)
      simp only []
      split
      · rw [ih _ hj', fr_getD_set_ne _ _ _ _ _ hne]
      · exact ih ts hj'

theorem bcFold_getD (i j : ℕ) (ns : List Node) (ts : List ℚ)
    (hnd : ns.Nodup) (hi : Node.h i ∉ ns) :
    (bcFold i ns ts).getD j 0 =
      if Node.h j ∈ ns ∧ j < ts.length ∧ ts.getD j 0 < ts.getD i 0
      then min (ts.getD j 0 + 1/10) 1 else ts.getD j 0 := by
  induction ns generalizing ts with
  | nil => simp [bcFold_nil]
  | cons nd ns ih =>
    have hnd' : ns.Nodup := hnd.of_cons
    have hi' : Node.h i ∉ ns := fun h => hi (List.mem_cons_of_mem _ h)
    rw [bcFold_cons]
    cases nd with
    | creature =>
      rw [ih ts hnd' hi']
      have : (Node.h j ∈ Node.creature :: ns) ↔ (Node.h j ∈ ns) := by simp
      simp only [this]
    | h j' =>
      have hij' : i ≠ j' := by
        intro he; subst he; exact hi (List.mem_cons_self _ _)
      by_cases hjj : j = j'
      · subst hjj
        have hjns : Node.h j ∉ ns := (List.nodup_cons.mp hnd).1
        simp only []
        split
        · next hlt =>
          rw [bcFold_getD_not_mem _ _ _ _ hjns]
          by_cases hlen : j < ts.length
          · rw [fr_getD_set_self _ _ _ _ hlen,
              if_pos ⟨List.mem_cons_self _ _, hlen, hlt⟩]
          · rw [fr_set_oob _ _ _ (by omega),
              if_neg (fun hc => hlen hc.2.1)]
        · next hge =>
          rw [bcFold_getD_not_mem _ _ _ _ hjns,
            if_neg (fun hc => hge hc.2.2)]
      · have hmem : (Node.h j ∈ Node.h j' :: ns) ↔ (Node.h j ∈ ns) := by
          simp [hjj]
        simp only []
        split
        · next hlt =>
          rw [ih _ hnd' hi']
          rw [fr_getD_set_ne _ _ _ _ _ (by omega : j' ≠ j),
            fr_getD_set_ne _ _ _ _ _ (by omega : j' ≠ i),
            fr_length_set]
          simp only [hmem]
        · rw [ih _ hnd' hi']
          simp only [hmem]

theorem bcFold_mono_and_le_one (i j : ℕ) (ns : List Node) (ts : List ℚ)
    (hub : ∀ t ∈ ts, t ≤ 1) :
    ts.getD j 0 ≤ (bcFold i ns ts).getD j 0 ∧
    (∀ t ∈ bcFold i ns ts, t ≤ 1) := by
  induction ns generalizing ts with
  | nil => exact ⟨le_refl _, hub⟩
  | cons nd ns ih =>
    rw [bcFold_cons]
    cases nd with
    | creature => exact ih ts hub
    | h j' =>
      simp only []
      split
      · next hlt =>
        set v := min (ts.getD j' 0 + 1/10) 1 with hv
        have hub' : ∀ t ∈ ts.set j' v, t ≤ 1 := by
          intro t ht
          rcases List.mem_or_eq_of_mem_set ht with hm | he
          · exact hub _ hm
          · subst he; exact min_le_right _ _
        have step : ts.getD j 0 ≤ (ts.set j' v).getD j 0 := by
          by_cases hjj : j = j'
          · subst hjj
            by_cases hlen : j < ts.length
            · rw [fr_getD_set_self _ _ _ _ hlen]
              have h1 : ts.getD j 0 ≤ 1 := by
                rcases fr_getD_mem_or ts j 0 with hm | hz
                · exact hub _ hm
                · rw [hz]; norm_num
              exact le_min (by linarith) h1
            · rw [fr_set_oob _ _ _ (by omega)]
          · rw [fr_getD_set_ne _ _ _ _ _ (by omega : j' ≠ j)]
        rcases ih (ts.set j' v) hub' with ⟨h1, h2⟩
        exact ⟨le_trans step h1, h2⟩
      · exact ih ts hub

theorem bcFold_trustsOK (i : ℕ) (ns : List Node) (ts : List ℚ)
    (h : TrustsOK ts) : TrustsOK (bcFold i ns ts) := by
  induction ns generalizing ts with
  | nil => exact h
  | cons nd ns ih =>
    rw [bcFold_cons]
    cases nd with
    | creature => exact ih ts h
    | h j' =>
      simp only []
      split
      · next hlt =>
        refine ih _ (trustsOK_set h j' ?_ (min_le_right _ _))
        have := (trustsOK_getD h j').1
        exact le_min (by linarith) (by norm_num)
      · exact ih ts h

/-! ## Field-preservation lemmas -/

theorem broadcastTrust_fields (s : ModelState) (i : ℕ) :
    (broadcastTrust s i).edges = s.edges ∧
    (broadcastTrust s i).initTrusts = s.initTrusts ∧
    (broadcastTrust s i).posTrace = s.posTrace ∧
    (broadcastTrust s i).nHumans = s.nHumans ∧
    (broadcastTrust s i).cpos = s.cpos ∧
    (broadcastTrust s i).empathy = s.empathy ∧
    (broadcastTrust s i).resentment = s.resentment ∧
    (broadcastTrust s i).cstate = s.cstate ∧
    (broadcastTrust s i).enableBroadcast = s.enableBroadcast ∧
    (broadcastTrust s i).resThreshold = s.resThreshold ∧
    (broadcastTrust s i).empThreshold = s.empThreshold ∧
    (broadcastTrust s i).collected = s.collected := by
  unfold broadcastTrust
  split <;> simp

theorem meet_fields (s : ModelState) (i : ℕ) (m : RStream) (mi : ℕ) :
    (meet s i m mi).1.edges = s.edges ∧
    (meet s i m mi).1.initTrusts = s.initTrusts ∧
    (meet s i m mi).1.posTrace = s.posTrace ∧
    (meet s i m mi).1.nHumans = s.nHumans ∧
    (meet s i m mi).1.cpos = s.cpos ∧
    (meet s i m mi).1.enableBroadcast = s.enableBroadcast ∧
    (meet s i m mi).1.resThreshold = s.resThreshold ∧
    (meet s i m mi).1.empThreshold = s.empThreshold ∧
    (meet s i m mi).1.collected = s.collected := by
  unfold meet meetPre
  simp only []
  split
  · next =>
    have hb := broadcastTrust_fields
      { s with
        trusts := (s.trusts.set i (interactH s.cstate (s.trusts.getD i 0) (m mi)).1).set i
          (learn ((s.trusts.set i (interactH s.cstate (s.trusts.getD i 0) (m mi)).1).getD i 0)
            (interactH s.cstate (s.trusts.getD i 0) (m mi)).2),
        empathy := (update_emotions s.resThreshold s.empThreshold s.empathy s.resentment
          (interactH s.cstate (s.trusts.getD i 0) (m mi)).2).1,
        resentment := (update_emotions s.resThreshold s.empThreshold s.empathy s.resentment
          (interactH s.cstate (s.trusts.getD i 0) (m mi)).2).2.1,
        cstate := (update_emotions s.resThreshold s.empThreshold s.empathy s.resentment
          (interactH s.cstate (s.trusts.getD i 0) (m mi)).2).2.2 } i
    exact ⟨hb.1, hb.2.1, hb.2.2.1, hb.2.2.2.1, hb.2.2.2.2.1, hb.2.2.2.2.2.2.2.2.1,
      hb.2.2.2.2.2.2.2.2.2.1, hb.2.2.2.2.2.2.2.2.2.2.1, hb.2.2.2.2.2.2.2.2.2.2.2⟩
  · simp

theorem interactFold_fields (m : RStream) (l : List ℕ) :
    ∀ (s : ModelState) (mi : ℕ),
    (l.foldl (fun acc i => meet acc.1 i m acc.2) (s, mi)).1.edges = s.edges ∧
    (l.foldl (fun acc i => meet acc.1 i m acc.2) (s, mi)).1.initTrusts = s.initTrusts ∧
    (l.foldl (fun acc i => meet acc.1 i m acc.2) (s, mi)).1.posTrace = s.posTrace ∧
    (l.foldl (fun acc i => meet acc.1 i m acc.2) (s, mi)).1.nHumans = s.nHumans ∧
    (l.foldl (fun acc i => meet acc.1 i m acc.2) (s, mi)).1.cpos = s.cpos ∧
    (l.foldl (fun acc i => meet acc.1 i m acc.2) (s, mi)).1.collected = s.collected := by
  induction l with
  | nil => intro s mi; exact ⟨rfl, rfl, rfl, rfl, rfl, rfl⟩
  | cons a l ih =>
    intro s mi
    have hm := meet_fields s a m mi
    have hi := ih (meet s a m mi).1 (meet s a m mi).2
    simp only [List.foldl_cons]
    exact ⟨hi.1.trans hm.1, hi.2.1.trans hm.2.1, hi.2.2.1.trans hm.2.2.1,
      hi.2.2.2.1.trans hm.2.2.2.1, hi.2.2.2.2.1.trans hm.2.2.2.2.1,
      hi.2.2.2.2.2.trans hm.2.2.2.2.2.2.2.2⟩

theorem moveCreature_fields (s : ModelState) (g : RStream) (gi : ℕ) :
    (moveCreature s g gi).1.edges = s.edges ∧
    (moveCreature s g gi).1.initTrusts = s.initTrusts ∧
    (moveCreature s g gi).1.nHumans = s.nHumans ∧
    (moveCreature s g gi).1.trusts = s.trusts ∧
    (moveCreature s g gi).1.empathy = s.empathy ∧
    (moveCreature s g gi).1.resentment = s.resentment ∧
    (moveCreature s g gi).1.cstate = s.cstate ∧
    (moveCreature s g gi).1.enableBroadcast = s.enableBroadcast ∧
    (moveCreature s g gi).1.resThreshold = s.resThreshold ∧
    (moveCreature s g gi).1.empThreshold = s.empThreshold ∧
    (moveCreature s g gi).1.collected = s.collected := by
  unfold moveCreature
  cases hns : nbrs s.edges Node.creature <;> simp [hns]

/-! ## Invariant preservation up to whole runs -/

theorem good_congr {a b : ModelState} (h1 : a.trusts = b.trusts)
    (h2 : a.empathy = b.empathy) (h3 : a.resentment = b.resentment)
    (hb : GoodState b) : GoodState a := by
  obtain ⟨ht, e1, e2, e3, e4⟩ := hb
  exact ⟨h1 ▸ ht, h2 ▸ e1, h2 ▸ e2, h3 ▸ e3, h3 ▸ e4⟩

theorem broadcastTrust_good (s : ModelState) (i : ℕ) (hg : GoodState s) :
    GoodState (broadcastTrust s i) := by
  obtain ⟨ht, e1, e2, e3, e4⟩ := hg
  have hf := broadcastTrust_fields s i
  refine ⟨?_, hf.2.2.2.2.2.1 ▸ e1, hf.2.2.2.2.2.1 ▸ e2,
    hf.2.2.2.2.2.2.1 ▸ e3, hf.2.2.2.2.2.2.1 ▸ e4⟩
  unfold broadcastTrust
  split
  · exact ht
  · exact bcFold_trustsOK _ _ _ ht

theorem meetPre_good (s : ModelState) (i : ℕ) (m : RStream) (mi : ℕ)
    (hg : GoodState s) : GoodState (meetPre s i m mi).1 := by
  obtain ⟨ht, e1, e2, e3, e4⟩ := hg
  have hA := interactH_trust_cases s.cstate (s.trusts.getD i 0) (m mi)
  have htA : -1 ≤ (interactH s.cstate (s.trusts.getD i 0) (m mi)).1 ∧
      (interactH s.cstate (s.trusts.getD i 0) (m mi)).1 ≤ 1 := by
    rcases hA with h | h <;> rw [h]
    · norm_num
    · exact trustsOK_getD ht i
  have ht1 : TrustsOK (s.trusts.set i (interactH s.cstate (s.trusts.getD i 0) (m mi)).1) :=
    trustsOK_set ht i htA.1 htA.2
  have hB := learn_cases
    ((s.trusts.set i (interactH s.cstate (s.trusts.getD i 0) (m mi)).1).getD i 0)
    (interactH s.cstate (s.trusts.getD i 0) (m mi)).2
  have htB : -1 ≤ learn
        ((s.trusts.set i (interactH s.cstate (s.trusts.getD i 0) (m mi)).1).getD i 0)
        (interactH s.cstate (s.trusts.getD i 0) (m mi)).2 ∧
      learn ((s.trusts.set i (interactH s.cstate (s.trusts.getD i 0) (m mi)).1).getD i 0)
        (interactH s.cstate (s.trusts.getD i 0) (m mi)).2 ≤ 1 := by
    rcases hB with h | h <;> rw [h]
    · norm_num
    · exact trustsOK_getD ht1 i
  have hemo := update_emotions_bounds s.resThreshold s.empThreshold s.empathy s.resentment
    (interactH s.cstate (s.trusts.getD i 0) (m mi)).2 e1 e2 e3 e4
  exact ⟨trustsOK_set ht1 i htB.1 htB.2, hemo.1, hemo.2.1, hemo.2.2.1, hemo.2.2.2⟩

theorem meet_good (s : ModelState) (i : ℕ) (m : RStream) (mi : ℕ)
    (hg : GoodState s) : GoodState (meet s i m mi).1 := by
  unfold meet
  simp only []
  split
  · exact broadcastTrust_good _ _ (meetPre_good s i m mi hg)
  · exact meetPre_good s i m mi hg

theorem interactFold_good (m : RStream) (l : List ℕ) :
    ∀ (s : ModelState) (mi : ℕ), GoodState s →
    GoodState ((l.foldl (fun acc i => meet acc.1 i m acc.2) (s, mi)).1) := by
  induction l with
  | nil => intro s mi hg; exact hg
  | cons a l ih =>
    intro s mi hg
    simp only [List.foldl_cons]
    exact ih (meet s a m mi).1 (meet s a m mi).2 (meet_good s a m mi hg)

theorem creatureInteract_good (s : ModelState) (m : RStream) (mi : ℕ)
    (hg : GoodState s) : GoodState (creatureInteract s m mi).1 :=
  interactFold_good m (cellHumans s s.cpos) s mi hg

theorem moveCreature_good (s : ModelState) (g : RStream) (gi : ℕ)
    (hg : GoodState s) : GoodState (moveCreature s g gi).1 := by
  have hf := moveCreature_fields s g gi
  exact good_congr hf.2.2.2.1 hf.2.2.2.2.1 hf.2.2.2.2.2.1 hg

theorem collect_good (s : ModelState) (hg : GoodState s) :
    GoodState (collect s) := good_congr rfl rfl rfl hg

theorem tickT_good (s : ModelState) (g m : RStream) (gi mi : ℕ)
    (hg : GoodState s) : GoodState (tickT s g m gi mi).1 :=
  collect_good _ (creatureInteract_good _ m _
    (moveCreature_good _ g _ (moveCreature_good s g gi hg)))

theorem runAux_good (g m : RStream) (n : ℕ) :
    ∀ x : ModelState × ℕ × ℕ, GoodState x.1 → GoodState (runAux g m n x).1 := by
  induction n with
  | zero => intro x hg; exact hg
  | succ n ih =>
    intro x hg
    exact ih _ (tickT_good x.1 g m x.2.1 x.2.2 hg)

theorem build_good (p : Params) (g : RStream) (s : ModelState) (gi : ℕ)
    (hb : build p g = .ok (s, gi)) : GoodState s := by
  unfold build at hb
  rcases hw : wattsStrogatz p.n_humans (adjustedK p.avg_degree) p.rewiring_prob g 0 with e | es0
  · simp only [hw] at hb
    exact absurd hb (by simp)
  · simp only [hw] at hb
    rcases hs : sample (humanNodes p.n_humans) p.avg_degree g es0.2 with e | tgt
    · simp only [hs] at hb
      exact absurd hb (by simp)
    · simp only [hs] at hb
      simp only [Except.ok.injEq, Prod.mk.injEq] at hb
      obtain ⟨hb1, _⟩ := hb
      subst hb1
      refine collect_good _ ⟨?_, by norm_num, by norm_num, by norm_num, by norm_num⟩
      intro t htm
      simp only [assignTrusts, List.mem_map] at htm
      obtain ⟨idx, _, hrfl⟩ := htm
      rcases archetypeTrust_cases p.fearful_frac p.compassionate_frac
        (g (es0.2 + (humanNodes p.n_humans).length - (humanNodes p.n_humans).length + idx)) with h | h | h <;>
      · rw [← hrfl]
        rcases archetypeTrust_cases p.fearful_frac p.compassionate_frac _ with h' | h' | h' <;>
          rw [h'] <;> norm_num

theorem run_good (p : Params) (g m : RStream) (n : ℕ) (s : ModelState)
    (hr : runState p g m n = .ok s) : GoodState s := by
  unfold runState at hr
  rcases hb : build p g with e | s0
  · rw [hb] at hr; exact absurd hr (by simp)
  · rw [hb] at hr
    simp only [Except.ok.injEq] at hr
    subst hr
    exact runAux_good g m n _ (build_good p g s0.1 s0.2 (by rw [hb]))

/-! ## Seeded-stream independence of the global-side projection -/

theorem moveCreature_congr (g : RStream) (gi : ℕ) {s s' : ModelState}
    (he : s.edges = s'.edges) (hp : s.posTrace = s'.posTrace)
    (hc : s.cpos = s'.cpos) :
    (moveCreature s g gi).1.cpos = (moveCreature s' g gi).1.cpos ∧
    (moveCreature s g gi).1.posTrace = (moveCreature s' g gi).1.posTrace ∧
    (moveCreature s g gi).2.1 = (moveCreature s' g gi).2.1 := by
  unfold moveCreature
  rw [he, hp]
  cases hns : nbrs s'.edges Node.creature <;> simp [hns, hc, hp, he]

theorem sameGlobal_of_fields {a b : ModelState}
    (he : a.edges = b.edges) (hit : a.initTrusts = b.initTrusts)
    (hp : a.posTrace = b.posTrace) (hn : a.nHumans = b.nHumans)
    (hc : a.cpos = b.cpos) : SameGlobal a b := ⟨he, hit, hp, hn, hc⟩

theorem creatureInteract_fields (s : ModelState) (m : RStream) (mi : ℕ) :
    (creatureInteract s m mi).1.edges = s.edges ∧
    (creatureInteract s m mi).1.initTrusts = s.initTrusts ∧
    (creatureInteract s m mi).1.posTrace = s.posTrace ∧
    (creatureInteract s m mi).1.nHumans = s.nHumans ∧
    (creatureInteract s m mi).1.cpos = s.cpos ∧
    (creatureInteract s m mi).1.collected = s.collected :=
  interactFold_fields m (cellHumans s s.cpos) s mi

theorem collect_fields (s : ModelState) :
    (collect s).edges = s.edges ∧
    (collect s).initTrusts = s.initTrusts ∧
    (collect s).posTrace = s.posTrace ∧
    (collect s).nHumans = s.nHumans ∧
    (collect s).cpos = s.cpos :=
  ⟨rfl, rfl, rfl, rfl, rfl⟩

theorem tickT_sameGlobal (g m m' : RStream) (gi mi mi' : ℕ)
    {s s' : ModelState} (h : SameGlobal s s') :
    SameGlobal (tickT s g m gi mi).1 (tickT s' g m' gi mi').1 ∧
    (tickT s g m gi mi).2.1 = (tickT s' g m' gi mi').2.1 := by
  obtain ⟨he, hit, hp, hn, hc⟩ := h
  have m1c := moveCreature_congr g gi he hp hc
  have m1f := moveCreature_fields s g gi
  have m1f' := moveCreature_fields s' g gi
  have he1 : (moveCreature s g gi).1.edges = (moveCreature s' g gi).1.edges := by
    rw [m1f.1, m1f'.1, he]
  have hgi1 : (moveCreature s g gi).2.1 = (moveCreature s' g gi).2.1 := m1c.2.2
  have m2c := moveCreature_congr g (moveCreature s g gi).2.1 he1 m1c.2.1 m1c.1
  have m2f := moveCreature_fields (moveCreature s g gi).1 g (moveCreature s g gi).2.1
  have m2f' := moveCreature_fields (moveCreature s' g gi).1 g (moveCreature s' g gi).2.1
  rw [hgi1] at m2c m2f
  have he2 : (moveCreature (moveCreature s g gi).1 g (moveCreature s' g gi).2.1).1.edges =
      (moveCreature (moveCreature s' g gi).1 g (moveCreature s' g gi).2.1).1.edges := by
    rw [m2f.1, m2f'.1, he1]
  have hit2 : (moveCreature (moveCreature s g gi).1 g (moveCreature s' g gi).2.1).1.initTrusts =
      (moveCreature (moveCreature s' g gi).1 g (moveCreature s' g gi).2.1).1.initTrusts := by
    rw [m2f.2.1, m2f'.2.1, m1f.2.1, m1f'.2.1, hit]
  have hn2 : (moveCreature (moveCreature s g gi).1 g (moveCreature s' g gi).2.1).1.nHumans =
      (moveCreature (moveCreature s' g gi).1 g (moveCreature s' g gi).2.1).1.nHumans := by
    rw [m2f.2.2.1, m2f'.2.2.1, m1f.2.2.1, m1f'.2.2.1, hn]
  -- the interaction pass touches none of the global-side fields
  have if1 := creatureInteract_fields
    (moveCreature (moveCreature s g gi).1 g (moveCreature s' g gi).2.1).1 m (mi + s.nHumans)
  have if2 := creatureInteract_fields
    (moveCreature (moveCreature s' g gi).1 g (moveCreature s' g gi).2.1).1 m' (mi' + s'.nHumans)
  show SameGlobal
      (collect (creatureInteract (moveCreature (moveCreature s g gi).1 g (moveCreature s g gi).2.1).1 m
        (mi + s.nHumans)).1)
      (collect (creatureInteract (moveCreature (moveCreature s' g gi).1 g (moveCreature s' g gi).2.1).1 m'
        (mi' + s'.nHumans)).1) ∧
    (moveCreature (moveCreature s g gi).1 g (moveCreature s g gi).2.1).2.1 =
      (moveCreature (moveCreature s' g gi).1 g (moveCreature s' g gi).2.1).2.1
  rw [hgi1]
  refine ⟨sameGlobal_of_fields ?_ ?_ ?_ ?_ ?_, m2c.2.2⟩
  · rw [(collect_fields _).1, (collect_fields _).1, if1.1, if2.1, he2]
  · rw [(collect_fields _).2.1, (collect_fields _).2.1, if1.2.1, if2.2.1, hit2]
  · rw [(collect_fields _).2.2.1, (collect_fields _).2.2.1, if1.2.2.1, if2.2.2.1, m2c.2.1]
  · rw [(collect_fields _).2.2.2.1, (collect_fields _).2.2.2.1,
      if1.2.2.2.1, if2.2.2.2.1, hn2]
  · rw [(collect_fields _).2.2.2.2, (collect_fields _).2.2.2.2,
      if1.2.2.2.2.1, if2.2.2.2.2.1, m2c.1]

theorem runAux_sameGlobal (g m m' : RStream) (n : ℕ) :
    ∀ (s s' : ModelState) (gi mi mi' : ℕ), SameGlobal s s' →
    SameGlobal (runAux g m n (s, gi, mi)).1 (runAux g m' n (s', gi, mi')).1 := by
  induction n with
  | zero => intro s s' gi mi mi' h; exact h
  | succ n ih =>
    intro s s' gi mi mi' h
    have ht := tickT_sameGlobal g m m' gi mi mi' h
    show SameGlobal
      (runAux g m n ((tickT s g m gi mi).1, (tickT s g m gi mi).2.1, (tickT s g m gi mi).2.2.1)).1
      (runAux g m' n ((tickT s' g m' gi mi').1, (tickT s' g m' gi mi').2.1, (tickT s' g m' gi mi').2.2.1)).1
    rw [ht.2]
    exact ih _ _ _ _ _ ht.1

/-! ## Claims -/

/-- C1, counterexample: in a model configured with `max_emotion = 5`, the
initial (reachable) creature state has `empathy = 10`; an Accept update
leaves empathy at `10`, which differs from `min(empathy+1, maxEmotion) = 5`
and lies outside `[0, maxEmotion]` — the code clamps against the hardcoded
constant `10`, not the configured `max_emotion`. -/
theorem claim_c1_counterexample :
    (update_emotions s5.resThreshold s5.empThreshold s5.empathy s5.resentment .accept).1 = 10 ∧
    (update_emotions s5.resThreshold s5.empThreshold s5.empathy s5.resentment .accept).1 ≠
      min (s5.empathy + 1) p5.max_emotion ∧
    ¬((update_emotions s5.resThreshold s5.empThreshold s5.empathy s5.resentment .accept).1 ≤
      p5.max_emotion) := by
  have h10 : s5.empathy = 10 := by with_unfolding_all decide
  have h0 : s5.resentment = 0 := by with_unfolding_all decide
  have hrt : s5.resThreshold = 15/4 := by with_unfolding_all decide
  have het : s5.empThreshold = 5/4 := by with_unfolding_all decide
  have hm : p5.max_emotion = 5 := by with_unfolding_all decide
  rw [h10, h0, hrt, het, hm]
  norm_num [update_emotions, min_def, max_def]

/-- C1 (amended: the clamping bound is the hardcoded constant `10` — the
default `maxEmotion` — not the configured `max_emotion`): Accept gives
`empathy = min(empathy+1, 10)`, `resentment = max(resentment-1, 0)`; Reject
gives `empathy = max(empathy-1, 0)`, `resentment = min(resentment+1, 10)`;
updates preserve `[0, 10]`, and every reachable run state has
`empathy, resentment ∈ [0, 10]`. -/
theorem claim_c1_amended :
    (∀ rt et e r : ℚ,
      (update_emotions rt et e r .accept).1 = min (e + 1) 10 ∧
      (update_emotions rt et e r .accept).2.1 = max (r - 1) 0 ∧
      (update_emotions rt et e r .reject).1 = max (e - 1) 0 ∧
      (update_emotions rt et e r .reject).2.1 = min (r + 1) 10) ∧
    (∀ (rt et e r : ℚ) (o : Outcome), 0 ≤ e → e ≤ 10 → 0 ≤ r → r ≤ 10 →
      0 ≤ (update_emotions rt et e r o).1 ∧ (update_emotions rt et e r o).1 ≤ 10 ∧
      0 ≤ (update_emotions rt et e r o).2.1 ∧ (update_emotions rt et e r o).2.1 ≤ 10) ∧
    (∀ (p : Params) (g m : RStream) (n : ℕ), emoInvE (runState p g m n) = true) := by
  refine ⟨fun rt et e r => ⟨rfl, rfl, rfl, rfl⟩,
    fun rt et e r o h1 h2 h3 h4 => update_emotions_bounds rt et e r o h1 h2 h3 h4,
    fun p g m n => ?_⟩
  rcases hr : runState p g m n with e | s
  · rfl
  · have hg := run_good p g m n s hr
    simp only [emoInvE, Bool.and_eq_true, decide_eq_true_eq]
    exact ⟨⟨⟨hg.2.1, hg.2.2.1⟩, hg.2.2.2.1⟩, hg.2.2.2.2⟩

/-- Witness for the hypotheses of C1's amended theorem at a concrete
input. -/
theorem claim_c1_witness :
    0 ≤ (update_emotions ((15:ℚ)/2) (5/2) 3 4 .reject).1 ∧
    (update_emotions ((15:ℚ)/2) (5/2) 3 4 .reject).1 ≤ 10 ∧
    0 ≤ (update_emotions ((15:ℚ)/2) (5/2) 3 4 .reject).2.1 ∧
    (update_emotions ((15:ℚ)/2) (5/2) 3 4 .reject).2.1 ≤ 10 :=
  claim_c1_amended.2.1 (15/2) (5/2) 3 4 .reject
    (by norm_num) (by norm_num) (by norm_num) (by norm_num)

/-- C2: after every emotion update the state is recomputed from the new
counters and the thresholds — Vengeful iff `resentment' > rt ∧ empathy' < et`
(checked first, taking priority), else Cautious iff `resentment' > 0.6*rt`,
else Peaceful; and a model built with unsupplied thresholds defaults them to
`0.75 × max_emotion` and `0.25 × max_emotion`. -/
theorem claim_c2 :
    (∀ (rt et e r : ℚ) (o : Outcome),
      ((update_emotions rt et e r o).2.2 = .vengeful ↔
        (update_emotions rt et e r o).2.1 > rt ∧ (update_emotions rt et e r o).1 < et) ∧
      ((update_emotions rt et e r o).2.2 = .cautious ↔
        ¬((update_emotions rt et e r o).2.1 > rt ∧ (update_emotions rt et e r o).1 < et) ∧
        (update_emotions rt et e r o).2.1 > 3/5 * rt) ∧
      ((update_emotions rt et e r o).2.2 = .peaceful ↔
        ¬((update_emotions rt et e r o).2.1 > rt ∧ (update_emotions rt et e r o).1 < et) ∧
        ¬((update_emotions rt et e r o).2.1 > 3/5 * rt))) ∧
    (∀ (p : Params) (g : RStream) (s : ModelState) (gi : ℕ),
      p.res_threshold = none → p.emp_threshold = none →
      build p g = .ok (s, gi) →
      s.resThreshold = 3/4 * p.max_emotion ∧ s.empThreshold = 1/4 * p.max_emotion) := by
  constructor
  · intro rt et e r o
    unfold update_emotions
    simp only []
    refine ⟨?_, ?_, ?_⟩ <;> split_ifs <;> simp_all
  · intro p g s gi h1 h2 hb
    unfold build at hb
    rw [h1, h2] at hb
    simp only [Option.getD_none] at hb
    rcases hw : wattsStrogatz p.n_humans (adjustedK p.avg_degree) p.rewiring_prob g 0 with e | es0
    · simp only [hw] at hb
      exact absurd hb (by simp)
    · simp only [hw] at hb
      rcases hs : sample (humanNodes p.n_humans) p.avg_degree g es0.2 with e | tgt
      · simp only [hs] at hb
        exact absurd hb (by simp)
      · simp only [hs] at hb
        simp only [Except.ok.injEq, Prod.mk.injEq] at hb
        obtain ⟨hb1, _⟩ := hb
        subst hb1
        exact ⟨rfl, rfl⟩

/-- Witness for C2's build-defaults clause at the concrete configuration
`pSmall` (thresholds unsupplied). -/
theorem claim_c2_witness :
    s6.resThreshold = 3/4 * pSmall.max_emotion ∧
    s6.empThreshold = 1/4 * pSmall.max_emotion :=
  ⟨(claim_c2.2 pSmall gB s6 3 rfl rfl rfl).1,
   (claim_c2.2 pSmall gB s6 3 rfl rfl rfl).2⟩

/-- C3: while the creature is Vengeful, `interact` deterministically resets
the human's trust to `-1` and returns Reject; otherwise negative trust gives
Reject, positive trust gives Accept, and zero trust flips the seeded coin
(`accept` exactly when the raw draw is below `1/2`, an even split of the
uniform draw range). -/
theorem claim_c3 :
    (∀ t r : ℚ, interactH .vengeful t r = (-1, .reject)) ∧
    (∀ (cs : CreatureState) (t r : ℚ), cs ≠ .vengeful →
      (t < 0 → interactH cs t r = (t, .reject)) ∧
      (t > 0 → interactH cs t r = (t, .accept)) ∧
      (t = 0 → interactH cs t r = (t, if r < 1/2 then .accept else .reject))) := by
  constructor
  · intro t r; simp [interactH]
  · intro cs t r hcs
    refine ⟨fun h => ?_, fun h => ?_, fun h => ?_⟩
    · unfold interactH
      rw [if_neg hcs, if_pos h]
    · unfold interactH
      rw [if_neg hcs, if_neg (by linarith : ¬t < 0), if_pos h]
    · subst h
      unfold interactH
      rw [if_neg hcs, if_neg (lt_irrefl 0), if_neg (lt_irrefl 0)]

/-- Witness for C3's non-vengeful cases at concrete inputs. -/
theorem claim_c3_witness :
    interactH .vengeful (1/2) (3/4) = (-1, .reject) ∧
    interactH .peaceful (-(1/2)) 0 = (-(1/2), .reject) ∧
    interactH .cautious (1/2) 0 = (1/2, .accept) ∧
    interactH .peaceful 0 (1/4) = (0, .accept) := by
  refine ⟨claim_c3.1 _ _,
    (claim_c3.2 .peaceful (-(1/2)) 0 (by decide)).1 (by norm_num),
    (claim_c3.2 .cautious (1/2) 0 (by decide)).2.1 (by norm_num), ?_⟩
  have h := (claim_c3.2 .peaceful 0 (1/4) (by decide)).2.2 rfl
  rw [h]
  norm_num

/-- C10: a human whose trust lies strictly between `-1` and `0` (reachable
only through `+0.1` diffusion nudges) is never changed by `learn` — which
fires only at trust exactly `-1` — and keeps answering Reject to every
non-Vengeful `interact`, until a Vengeful encounter resets it to exactly
`-1`. -/
theorem claim_c10 : ∀ t : ℚ, -1 < t → t < 0 →
    (∀ o : Outcome, learn t o = t) ∧
    (∀ (cs : CreatureState) (r : ℚ), cs ≠ .vengeful →
      interactH cs t r = (t, .reject)) ∧
    (∀ r : ℚ, interactH .vengeful t r = (-1, .reject)) := by
  intro t h1 h2
  refine ⟨fun o => ?_, fun cs r hcs => ?_, fun r => by simp [interactH]⟩
  · unfold learn
    rw [if_neg]
    rintro ⟨he, _⟩
    rw [he] at h1
    exact absurd h1 (lt_irrefl _)
  · unfold interactH
    rw [if_neg hcs, if_pos h2]

/-- Witness for C10 at trust `-1/2`. -/
theorem claim_c10_witness :
    learn (-(1/2)) .accept = -(1/2) ∧
    interactH .cautious (-(1/2)) 0 = (-(1/2), .reject) ∧
    interactH .vengeful (-(1/2)) 0 = (-1, .reject) :=
  ⟨(claim_c10 (-(1/2)) (by norm_num) (by norm_num)).1 .accept,
   (claim_c10 (-(1/2)) (by norm_num) (by norm_num)).2.1 .cautious 0 (by decide),
   (claim_c10 (-(1/2)) (by norm_num) (by norm_num)).2.2 0⟩

/-- C4: every trust value stays in `[-1, 1]`: the three trust-mutating
operations (a Vengeful-creature `interact`, `learn`, diffusion) preserve the
bound, the initial archetype trusts lie in `{-1, 0, +1}`, and every
reachable run state satisfies the invariant. -/
theorem claim_c4 :
    (∀ (cs : CreatureState) (t r : ℚ), -1 ≤ t → t ≤ 1 →
      -1 ≤ (interactH cs t r).1 ∧ (interactH cs t r).1 ≤ 1) ∧
    (∀ (t : ℚ) (o : Outcome), -1 ≤ t → t ≤ 1 →
      -1 ≤ learn t o ∧ learn t o ≤ 1) ∧
    (∀ ff cf r : ℚ, archetypeTrust ff cf r = -1 ∨ archetypeTrust ff cf r = 0 ∨
      archetypeTrust ff cf r = 1) ∧
    (∀ (s : ModelState) (i j : ℕ), TrustsOK s.trusts →
      -1 ≤ (broadcastTrust s i).trusts.getD j 0 ∧
      (broadcastTrust s i).trusts.getD j 0 ≤ 1) ∧
    (∀ (p : Params) (g m : RStream) (n : ℕ), trustInvE (runState p g m n) = true) := by
  refine ⟨?_, ?_, archetypeTrust_cases, ?_, ?_⟩
  · intro cs t r h1 h2
    rcases interactH_trust_cases cs t r with h | h <;> rw [h]
    · norm_num
    · exact ⟨h1, h2⟩
  · intro t o h1 h2
    rcases learn_cases t o with h | h <;> rw [h]
    · norm_num
    · exact ⟨h1, h2⟩
  · intro s i j ht
    have hOK : TrustsOK (broadcastTrust s i).trusts := by
      unfold broadcastTrust
      split
      · exact ht
      · exact bcFold_trustsOK _ _ _ ht
    exact trustsOK_getD hOK j
  · intro p g m n
    rcases hr : runState p g m n with e | s
    · rfl
    · have hg := run_good p g m n s hr
      simp only [trustInvE, List.all_eq_true, Bool.and_eq_true, decide_eq_true_eq]
      exact fun t ht => ⟨(hg.1 t ht).1, (hg.1 t ht).2⟩

/-- Witness for C4's hypotheses at concrete inputs. -/
theorem claim_c4_witness :
    (-1 ≤ (interactH .peaceful (1/2) 0).1 ∧ (interactH .peaceful (1/2) 0).1 ≤ 1) ∧
    (-1 ≤ learn (-1) .accept ∧ learn (-1) .accept ≤ 1) ∧
    (-1 ≤ (broadcastTrust sW 0).trusts.getD 1 0 ∧
      (broadcastTrust sW 0).trusts.getD 1 0 ≤ 1) :=
  ⟨claim_c4.1 .peaceful (1/2) 0 (by norm_num) (by norm_num),
   claim_c4.2.1 (-1) .accept (by norm_num) (by norm_num),
   claim_c4.2.2.2.1 sW 0 1 (by
     intro t ht
     have h2 : t = 1 ∨ t = 0 := by simpa [sW, emptyModel] using ht
     rcases h2 with h | h <;> rw [h] <;> constructor <;> norm_num)⟩

/-- C5: `broadcast_trust` is a no-op unless broadcasting is enabled and the
broadcaster's trust is strictly positive; when it fires, each neighboring
human with strictly lower trust moves to `min(trust + 0.1, 1.0)` and nobody
else changes; it never decreases any trust; and the creature triggers it
exactly on Accept outcomes. -/
theorem claim_c5 :
    (∀ (s : ModelState) (i : ℕ),
      s.enableBroadcast = false ∨ s.trusts.getD i 0 ≤ 0 →
      broadcastTrust s i = s) ∧
    (∀ (s : ModelState) (i j : ℕ),
      s.enableBroadcast = true → 0 < s.trusts.getD i 0 →
      (nbrs s.edges (Node.h i)).Nodup → Node.h i ∉ nbrs s.edges (Node.h i) →
      (broadcastTrust s i).trusts.getD j 0 =
        if Node.h j ∈ nbrs s.edges (Node.h i) ∧ j < s.trusts.length ∧
           s.trusts.getD j 0 < s.trusts.getD i 0
        then min (s.trusts.getD j 0 + 1/10) 1 else s.trusts.getD j 0) ∧
    (∀ (s : ModelState) (i j : ℕ), (∀ t ∈ s.trusts, t ≤ 1) →
      s.trusts.getD j 0 ≤ (broadcastTrust s i).trusts.getD j 0) ∧
    (∀ (s : ModelState) (i : ℕ) (m : RStream) (mi : ℕ),
      (meetPre s i m mi).2.1 = .reject →
      (meet s i m mi).1 = (meetPre s i m mi).1) ∧
    (∀ (s : ModelState) (i : ℕ) (m : RStream) (mi : ℕ),
      (meetPre s i m mi).2.1 = .accept →
      (meet s i m mi).1 = broadcastTrust (meetPre s i m mi).1 i) := by
  refine ⟨?_, ?_, ?_, ?_, ?_⟩
  · intro s i h
    unfold broadcastTrust
    rw [if_pos]
    rcases h with h | h
    · exact Or.inl (by simp [h])
    · exact Or.inr h
  · intro s i j henb hpos hnd hi
    unfold broadcastTrust
    rw [if_neg]
    · exact bcFold_getD i j _ s.trusts hnd hi
    · rintro (h | h)
      · exact h (by simp [henb])
      · exact absurd hpos (not_lt.mpr h)
  · intro s i j hub
    unfold broadcastTrust
    split
    · exact le_refl _
    · exact (bcFold_mono_and_le_one i j _ s.trusts hub).1
  · intro s i m mi h
    unfold meet
    simp only []
    rw [h]
    rw [if_neg (by simp)]
  · intro s i m mi h
    unfold meet
    simp only []
    rw [h]
    rw [if_pos rfl]

/-- Witness for C5's hypotheses: the disabled guard, the `+0.1` capped nudge
on a lower-trust neighbor, monotonicity, and both trigger directions. -/
theorem claim_c5_witness :
    broadcastTrust sOff 0 = sOff ∧
    (broadcastTrust sW 0).trusts.getD 1 0 = 1/10 ∧
    sW.trusts.getD 1 0 ≤ (broadcastTrust sW 0).trusts.getD 1 0 ∧
    (meet sA 0 mZ 0).1 = (meetPre sA 0 mZ 0).1 ∧
    (meet s6 1 mZ 0).1 = broadcastTrust (meetPre s6 1 mZ 0).1 1 := by
  refine ⟨claim_c5.1 sOff 0 (Or.inl rfl), ?_, ?_, ?_, ?_⟩
  · have h := claim_c5.2.1 sW 0 1 rfl (by with_unfolding_all decide)
      (by with_unfolding_all decide) (by with_unfolding_all decide)
    rw [h]
    with_unfolding_all decide
  · refine claim_c5.2.2.1 sW 0 1 ?_
    intro t ht
    have h2 : t = 1 ∨ t = 0 := by simpa [sW, emptyModel] using ht
    rcases h2 with h | h <;> subst h <;> norm_num
  · exact claim_c5.2.2.2.1 sA 0 mZ 0 (by with_unfolding_all decide)
  · exact claim_c5.2.2.2.2 s6 1 mZ 0 (by with_unfolding_all decide)

/-- C6, counterexample: at the model built from `pSmall`, one tick's event
trace contains two creature relocations, not exactly one — `model.step`
relocates the creature inline and then the creature's own `step()` calls
`move()` again inside the scheduler pass. -/
theorem claim_c6_counterexample :
    (traceOf s6 gB mZ 3 0).count Event.move = 2 ∧
    ¬((traceOf s6 gB mZ 3 0).count Event.move = 1) := by
  with_unfolding_all decide

/-- C6 (amended: the creature relocates twice per tick — once inline at the
start of `model.step`, once via `move()` inside its own scheduled step,
immediately before `interact()`): whenever the creature node has neighbors,
the tick trace is exactly move, move, interact, collect — both relocations
precede the interaction pass, and interaction precedes the snapshot. -/
theorem claim_c6_amended : ∀ (s : ModelState) (g m : RStream) (gi mi : ℕ),
    nbrs s.edges Node.creature ≠ [] →
    traceOf s g m gi mi =
      [Event.move, Event.move, Event.interact, Event.collectE] := by
  intro s g m gi mi h
  unfold traceOf tickT
  rcases hns : nbrs s.edges Node.creature with _ | ⟨nd, rest⟩
  · exact absurd hns h
  · simp only [moveCreature, hns]
    simp [hns]

/-- Witness for C6's amended theorem at the `pSmall` model. -/
theorem claim_c6_witness :
    nbrs s6.edges Node.creature ≠ [] ∧
    traceOf s6 gB mZ 3 0 =
      [Event.move, Event.move, Event.interact, Event.collectE] :=
  ⟨by with_unfolding_all decide,
   claim_c6_amended s6 gB mZ 3 0 (by with_unfolding_all decide)⟩

set_option maxRecDepth 10000 in
/-- C7: evaluating the construction at the default configuration
(`n_humans = 30`, `avg_degree = 4`, `initial_edges = 3`): the creature ends
up attached to `avg_degree = 4` targets, not the requested
`initial_edges = 3` — the live code samples `k=self.avg_degree` and never
reads `initial_edges` (the clamped `initial_edges` call sits commented
out, and `run_batch.py` varies `initial_edges` expecting an effect). -/
theorem claim_c7_code_bug :
    isOk (build defaultParams gB) = true ∧
    degreeOf (stateOfBuild (build defaultParams gB)).edges Node.creature =
      defaultParams.avg_degree ∧
    defaultParams.avg_degree = 4 ∧
    (stateOfBuild (build defaultParams gB)).initialEdges = 3 ∧
    degreeOf (stateOfBuild (build defaultParams gB)).edges Node.creature ≠
      (stateOfBuild (build defaultParams gB)).initialEdges := by
  with_unfolding_all decide

/-- C8, counterexample: requesting more creature edges than humans
(`initial_edges = 10 > n_humans = 5`) raises nothing — construction
succeeds, because no configuration validation exists and `initial_edges` is
never read. -/
theorem claim_c8_counterexample :
    pBig.initial_edges > pBig.n_humans ∧ isOk (build pBig gB) = true := by
  with_unfolding_all decide

/-- C8 (amended: the source defines no ConfigurationError and validates
nothing — fractions above 1, non-positive `max_emotion`, and any
`initial_edges` are accepted; construction fails only through the
underlying libraries, exactly when the adjusted Watts–Strogatz degree
exceeds the human count). -/
theorem claim_c8_amended : ∀ (p : Params) (g : RStream),
    isOk (build p g) = decide (adjustedK p.avg_degree ≤ p.n_humans) := by
  intro p g
  unfold build wattsStrogatz
  by_cases h1 : adjustedK p.avg_degree > p.n_humans
  · have hn : ¬adjustedK p.avg_degree ≤ p.n_humans := by omega
    simp [h1, isOk, hn]
  · have hle : adjustedK p.avg_degree ≤ p.n_humans := by omega
    have hsle : p.avg_degree ≤ p.n_humans := le_trans (le_adjustedK _) hle
    have hlen : ¬p.avg_degree > (humanNodes p.n_humans).length := by
      simp [humanNodes]
      omega
    by_cases h2 : adjustedK p.avg_degree = p.n_humans
    · simp [h1, h2, sample, hlen, isOk, hle]
    · simp [h1, h2, sample, hlen, isOk, hle]

/-- C9, counterexample: two runs with identical parameters (`pSmall`),
the identical seeded stream `mZ`, and the same number of ticks produce
different collected outputs when the process-global stream state differs —
the archetype draws come from the global `random` module, not from the
seeded stream, so a fixed seed alone does not reproduce a run. -/
theorem claim_c9_counterexample :
    collectedOf (runState pSmall gA mZ 0) ≠
    collectedOf (runState pSmall gB mZ 0) := by
  with_unfolding_all decide

/-- C9 (amended: only the neutral-trust coin flips and the scheduler
shuffle draw from the model's seeded stream; topology construction,
archetype assignment, and every movement choice draw from the
process-global `random` stream): the run's topology, initial archetype
assignment, and relocation trace are invariant under any change of the
seeded stream, for every parameterization and tick count. -/
theorem claim_c9_amended : ∀ (p : Params) (g m m' : RStream) (n : ℕ),
    (runState p g m n).map globalSideOf = (runState p g m' n).map globalSideOf := by
  intro p g m m' n
  unfold runState
  rcases hb : build p g with e | s0
  · rfl
  · simp only [Except.map]
    have h := runAux_sameGlobal g m m' n s0.1 s0.1 s0.2 0 0 ⟨rfl, rfl, rfl, rfl, rfl⟩
    obtain ⟨h1, h2, h3, _, _⟩ := h
    simp [globalSideOf, h1, h2, h3]

end Frankenstein
